import Mathlib

/-!
# Verification of the hyde tagger plugin (`hyde/ext/plugins/tagger.py`)

A shallow embedding of the tagger plugin's data model and operations:

* content items (`Resource`) carry an optional normalized tag list
  (`meta.tags`); the content-tree node's enumeration capability is
  modelled as the list of items the resolved walker yields, in order;
* `walk_resources_tagged_with` filters that enumeration by a
  `+`-delimited tag query with set-inclusion (AND) semantics;
* `Tag` objects live on an object heap (`Nat → Tag`), mirroring Python's
  mutable-object semantics, with relation buckets holding object ids;
* the plugin's builder state (`BState`) carries the heap, the tag
  registry (name → object id) and the dynamically registered walker
  methods (method name → bound tag object id);
* parsing of structured tag declarations, merging of config tag
  metadata, sorter resolution, and archive generation are embedded as
  pure functions over explicit state.

Python dicts are embedded as insertion-ordered association lists with
distinct keys maintained by `dictSet`; Python's `str.split('+')` is
embedded structurally as `pySplitPlus`.
-/

/-- A content item: identity plus the optional `meta.tags` attribute
(`none` models an item on which `attrgetter("meta.tags")` raises
`AttributeError`). -/
structure Resource where
  rid : Nat
  metaTags : Option (List String)
deriving DecidableEq

/-- A content-tree node. `resources` is the enumeration produced by the
external walker (`get_tagger_sort_method(node.site)()`), in order. -/
structure Node where
  resources : List Resource
deriving DecidableEq

/-- Helper for `pySplitPlus`: accumulate characters of the current
field, emitting a field at each separator. -/
def splitPlusAux : List Char → List Char → List String
  | [], acc => [String.mk acc.reverse]
  | c :: cs, acc =>
    if c = '+' then String.mk acc.reverse :: splitPlusAux cs []
    else splitPlusAux cs (c :: acc)

/-- Python's `s.split('+')`: split on every `+`, keeping empty fields
(so `"".split('+') == ['']` and `"a+".split('+') == ['a', '']`). -/
def pySplitPlus (s : String) : List String :=
  splitPlusAux s.data []

/-- The generator loop body of `walk_resources_tagged_with`: walk the
enumeration; an item without a `meta.tags` attribute is skipped
(`AttributeError` → `continue`); an item is yielded when the query tag
set is a subset of its tag set (`tags <= taglist`). -/
def walkTagged (tags : Finset String) : List Resource → List Resource
  | [] => []
  | r :: rest =>
    match r.metaTags with
    | none => walkTagged tags rest
    | some taglist =>
      if tags ⊆ taglist.toFinset then r :: walkTagged tags rest
      else walkTagged tags rest

/-- `walk_resources_tagged_with(node, tag)`: build the query set
`set(unicode(tag).split('+'))` and filter the node's enumeration by
set inclusion. -/
def walk_resources_tagged_with (node : Node) (tag : String) : List Resource :=
  walkTagged (pySplitPlus tag).toFinset node.resources

/-- The yield condition of the walker, phrased per item: the item has a
normalized tag list containing every tag of the query. -/
def taggedWithAll (query : String) (r : Resource) : Bool :=
  match r.metaTags with
  | none => false
  | some ts => decide (∀ t ∈ pySplitPlus query, t ∈ ts)

lemma walkTagged_eq_filter (tset : Finset String) (rs : List Resource) :
    walkTagged tset rs
      = rs.filter (fun r =>
          match r.metaTags with
          | none => false
          | some ts => decide (tset ⊆ ts.toFinset)) := by
  induction rs with
  | nil => rfl
  | cons r rest ih =>
    cases h : r.metaTags with
    | none => simp [walkTagged, h, List.filter, ih]
    | some ts =>
      by_cases hsub : tset ⊆ ts.toFinset
      · simp [walkTagged, h, hsub, List.filter, ih]
      · simp [walkTagged, h, hsub, List.filter, ih]

lemma walk_eq_filter (node : Node) (q : String) :
    walk_resources_tagged_with node q = node.resources.filter (taggedWithAll q) := by
  unfold walk_resources_tagged_with
  rw [walkTagged_eq_filter]
  apply List.filter_congr
  intro r _
  unfold taggedWithAll
  cases h : r.metaTags with
  | none => rfl
  | some ts =>
    simp only []
    congr 1
    apply propext
    constructor
    · intro hs t ht
      have := hs (List.mem_toFinset.mpr ht)
      exact List.mem_toFinset.mp this
    · intro hall t ht
      exact List.mem_toFinset.mpr (hall t (List.mem_toFinset.mp ht))

/-- C1: `walk_resources_tagged_with` yields exactly those items of the
enumeration, in enumeration order, whose normalized tag set contains
every tag name of the `+`-delimited query (AND semantics); items
lacking a normalized-tag attribute (`metaTags = none`) are skipped, and
the function is total, so no error is raised. -/
theorem walk_resources_tagged_with_spec (node : Node) (q : String) :
    walk_resources_tagged_with node q
      = node.resources.filter (fun r =>
          match r.metaTags with
          | none => false
          | some ts => decide (∀ t ∈ pySplitPlus q, t ∈ ts)) :=
  walk_eq_filter node q

/-- C10: the query string is interpreted as a *set* of tag names —
two query strings splitting to the same set of names (reordered or
duplicated components) produce the same result sequence. -/
theorem walk_resources_tagged_with_query_set (node : Node) (q1 q2 : String)
    (h : (pySplitPlus q1).toFinset = (pySplitPlus q2).toFinset) :
    walk_resources_tagged_with node q1 = walk_resources_tagged_with node q2 := by
  unfold walk_resources_tagged_with
  rw [h]

/-- C10 witness: `"A+B"` and `"B+A"` split to the same tag set, so the
walker returns the same items for both, as evaluated on a concrete
node. -/
theorem walk_resources_tagged_with_query_set_witness :
    (pySplitPlus "A+B").toFinset = (pySplitPlus "B+A").toFinset ∧
      walk_resources_tagged_with
          (Node.mk [Resource.mk 0 (some ["A", "B"]), Resource.mk 1 (some ["A"]),
            Resource.mk 2 none])
          "A+B"
        = walk_resources_tagged_with
          (Node.mk [Resource.mk 0 (some ["A", "B"]), Resource.mk 1 (some ["A"]),
            Resource.mk 2 none])
          "B+A" :=
  ⟨by decide,
    walk_resources_tagged_with_query_set
      (Node.mk [Resource.mk 0 (some ["A", "B"]), Resource.mk 1 (some ["A"]),
        Resource.mk 2 none])
      "A+B" "B+A" (by decide)⟩

/-! ## Python dicts as association lists -/

/-- `d[k]` lookup (first matching key; the dicts built here keep keys
distinct). -/
def dictGet {α : Type _} (d : List (String × α)) (k : String) : Option α :=
  match d with
  | [] => none
  | (k', v) :: rest => if k' = k then some v else dictGet rest k

/-- `d[k] = v`: replace in place when the key is present (a Python dict
keeps the key's slot), append otherwise. -/
def dictSet {α : Type _} (d : List (String × α)) (k : String) (v : α) :
    List (String × α) :=
  match d with
  | [] => [(k, v)]
  | (k', v') :: rest => if k' = k then (k, v) :: rest else (k', v') :: dictSet rest k v

/-- `del d[k]`: remove the key's entry. -/
def dictDel {α : Type _} (d : List (String × α)) (k : String) : List (String × α) :=
  match d with
  | [] => []
  | (k', v') :: rest => if k' = k then rest else (k', v') :: dictDel rest k

lemma dictGet_dictSet_self {α : Type _} (d : List (String × α)) (k : String) (v : α) :
    dictGet (dictSet d k v) k = some v := by
  induction d with
  | nil => simp [dictSet, dictGet]
  | cons p rest ih =>
    obtain ⟨pk, pv⟩ := p
    by_cases h : pk = k
    · subst h
      simp [dictSet, dictGet]
    · simp [dictSet, dictGet, h, ih]

lemma dictGet_dictSet_ne {α : Type _} (d : List (String × α)) (k k' : String) (v : α)
    (h : k' ≠ k) : dictGet (dictSet d k v) k' = dictGet d k' := by
  induction d with
  | nil => simp [dictSet, dictGet, Ne.symm h]
  | cons p rest ih =>
    obtain ⟨pk, pv⟩ := p
    by_cases hp : pk = k
    · subst hp
      simp [dictSet, dictGet, Ne.symm h]
    · simp [dictSet, dictGet, hp, ih]

lemma dictGet_dictDel_ne {α : Type _} (d : List (String × α)) (k k' : String)
    (h : k' ≠ k) : dictGet (dictDel d k) k' = dictGet d k' := by
  induction d with
  | nil => simp [dictDel, dictGet]
  | cons p rest ih =>
    obtain ⟨pk, pv⟩ := p
    by_cases hp : pk = k
    · subst hp
      simp [dictDel, dictGet, Ne.symm h]
    · simp [dictDel, dictGet, hp, ih]

/-! ## Tag objects and relations

`Tag.__init__` sets `name`, `resources`, `in_relations`, `out_relations`.
Tag objects are mutable Python objects; we model an object heap
`Nat → Tag` indexed by object id, and relation buckets hold object ids. -/

/-- The `Tag` object: name, list of member items (by item id), and the
two relation dictionaries mapping relation name to an ordered bucket of
related tag object ids. -/
structure Tag where
  name : String
  resources : List Nat
  in_relations : List (String × List Nat)
  out_relations : List (String × List Nat)
deriving DecidableEq

/-- `Tag.__create_relation(self, relation_name, relations)`: ensure the
bucket exists (`relations[relation_name] = []` when the key is absent),
then append `self` (here: the id `who`) unless already present. -/
def createRelation (who : Nat) (R : String) (d : List (String × List Nat)) :
    List (String × List Nat) :=
  let bucket := (dictGet d R).getD []
  let d := if (dictGet d R).isSome then d else dictSet d R []
  if who ∈ bucket then d else dictSet d R (bucket ++ [who])

/-- `Tag.relate_to_tag(self, tag, relation_name)` on the object heap:
first `tag.__create_relation(relation_name, self.out_relations)` adds
`tag` to `self.out_relations[R]`, then
`self.__create_relation(relation_name, tag.in_relations)` adds `self`
to `tag.in_relations[R]`. -/
def relate_to_tag (h : Nat → Tag) (selfId tagId : Nat) (R : String) : Nat → Tag :=
  let h1 := Function.update h selfId
    { h selfId with out_relations := createRelation tagId R (h selfId).out_relations }
  Function.update h1 tagId
    { h1 tagId with in_relations := createRelation selfId R (h1 tagId).in_relations }

lemma createRelation_get (who : Nat) (R : String) (d : List (String × List Nat)) :
    dictGet (createRelation who R d) R
      = some (let b := (dictGet d R).getD [];
              if who ∈ b then b else b ++ [who]) := by
  unfold createRelation
  cases hd : dictGet d R with
  | none =>
    simp only [hd, Option.getD, Option.isSome]
    simp [dictGet_dictSet_self, dictGet_dictSet_ne]
  | some b =>
    simp only [hd, Option.getD, Option.isSome]
    by_cases hw : who ∈ b
    · simp [hw, hd]
    · simp [hw, dictGet_dictSet_self]

lemma createRelation_mem (who : Nat) (R : String) (d : List (String × List Nat)) :
    who ∈ (dictGet (createRelation who R d) R).getD [] := by
  rw [createRelation_get]
  by_cases hw : who ∈ (dictGet d R).getD []
  · simp [hw]
  · simp [hw]

lemma createRelation_already (who : Nat) (R : String) (d : List (String × List Nat))
    (b : List Nat) (hd : dictGet d R = some b) (hw : who ∈ b) :
    createRelation who R d = d := by
  unfold createRelation
  rw [hd]
  simp [hw]

lemma createRelation_idem (who : Nat) (R : String) (d : List (String × List Nat)) :
    createRelation who R (createRelation who R d) = createRelation who R d := by
  have hget := createRelation_get who R d
  have hmem := createRelation_mem who R d
  rw [hget] at hmem
  exact createRelation_already who R _ _ hget (by simpa using hmem)

lemma relate_to_tag_out (h : Nat → Tag) (a b : Nat) (R : String) :
    ((relate_to_tag h a b R) a).out_relations
      = createRelation b R (h a).out_relations := by
  unfold relate_to_tag
  by_cases hab : a = b
  · subst hab
    simp [Function.update_same]
  · simp [Function.update_noteq hab, Function.update_same]

lemma relate_to_tag_in (h : Nat → Tag) (a b : Nat) (R : String) :
    ((relate_to_tag h a b R) b).in_relations
      = createRelation a R (h b).in_relations := by
  unfold relate_to_tag
  by_cases hab : a = b
  · subst hab
    simp [Function.update_same]
  · simp [Function.update_same, Function.update_noteq (Ne.symm hab)]

lemma relate_to_tag_name (h : Nat → Tag) (a b c : Nat) (R : String) :
    ((relate_to_tag h a b R) c).name = (h c).name := by
  unfold relate_to_tag
  by_cases hcb : c = b
  · subst hcb
    by_cases hca : c = a
    · subst hca
      simp [Function.update_same]
    · simp [Function.update_same, Function.update_noteq hca]
  · by_cases hca : c = a
    · subst hca
      simp [Function.update_noteq hcb, Function.update_same]
    · simp [Function.update_noteq hcb, Function.update_noteq hca]

/-- C2: after `A.relate_to_tag(B, R)`, the tag `B` is a member of
`A.out_relations[R]` and `A` is a member of `B.in_relations[R]`; and
re-applying the very same call leaves the heap — in particular both
relation buckets — unchanged (membership is tested before append). -/
theorem relate_to_tag_spec (h : Nat → Tag) (a b : Nat) (R : String) :
    b ∈ (dictGet ((relate_to_tag h a b R) a).out_relations R).getD []
    ∧ a ∈ (dictGet ((relate_to_tag h a b R) b).in_relations R).getD []
    ∧ relate_to_tag (relate_to_tag h a b R) a b R = relate_to_tag h a b R := by
  set h' := relate_to_tag h a b R with hh'
  have hout : (h' a).out_relations = createRelation b R (h a).out_relations :=
    relate_to_tag_out h a b R
  have hin : (h' b).in_relations = createRelation a R (h b).in_relations :=
    relate_to_tag_in h a b R
  refine ⟨?_, ?_, ?_⟩
  · rw [hout]; exact createRelation_mem b R (h a).out_relations
  · rw [hin]; exact createRelation_mem a R (h b).in_relations
  · show relate_to_tag h' a b R = h'
    have e1 : { h' a with out_relations := createRelation b R (h' a).out_relations } = h' a := by
      rw [hout, createRelation_idem, ← hout]
    have e2 : { h' b with in_relations := createRelation a R (h' b).in_relations } = h' b := by
      rw [hin, createRelation_idem, ← hin]
    simp only [relate_to_tag]
    rw [e1, Function.update_eq_self, e2, Function.update_eq_self]

/-! ## Builder state and `_create_tag_relations`

`TaggerPlugin` keeps the tag registry `tags` (a dict: tag name → Tag
object) and registers walker methods on `Node` via `add_method`. We
carry both , together with the object heap and a fresh-id counter, in
one builder state. A registered method
`walk_resources_tagged_with_<name>` is `walk_resources_tagged_with`
with its `tag` argument bound to a Tag object; invoking it converts
that object with `unicode(...)`, i.e. uses the Tag's `name`. -/

structure BState where
  heap : Nat → Tag
  nextId : Nat
  registry : List (String × Nat)
  methods : List (String × Nat)

/-- One iteration of the loop of `TaggerPlugin._create_tag_relations`
for the relation entry `(relation_name, related_tag_name)` processed on
behalf of the source tag object `tagId`:

* if `related_tag_name` is not a registry key, a fresh
  `Tag(related_tag_name)` is allocated and stored in the registry —
  under the key `relation_name` (`tags[relation_name]=related_tag` in
  the source); otherwise the registry entry of `related_tag_name` is
  used;
* `add_method(Node, 'walk_resources_tagged_with_%s' % related_tag_name,
  walk_resources_tagged_with, tag=tag)` registers the walker under the
  *related* tag's name, bound to the *source* tag object;
* `tag.relate_to_tag(related_tag, relation_name)` wires the edge. -/
def createTagRelationsStep (tagId : Nat) (st : BState) (rel : String × String) :
    BState :=
  match dictGet st.registry rel.2 with
  | none =>
    let relatedId := st.nextId
    let st1 : BState :=
      { heap := Function.update st.heap relatedId (Tag.mk rel.2 [] [] []),
        nextId := relatedId + 1,
        registry := dictSet st.registry rel.1 relatedId,
        methods := dictSet st.methods ("walk_resources_tagged_with_" ++ rel.2) tagId }
    { st1 with heap := relate_to_tag st1.heap tagId relatedId rel.1 }
  | some relatedId =>
    let st1 : BState :=
      { st with
        methods := dictSet st.methods ("walk_resources_tagged_with_" ++ rel.2) tagId }
    { st1 with heap := relate_to_tag st1.heap tagId relatedId rel.1 }

/-- `TaggerPlugin._create_tag_relations(tag, tags, relations)`: iterate
over the relation map's entries. -/
def create_tag_relations (tagId : Nat) (relations : List (String × String))
    (st : BState) : BState :=
  relations.foldl (createTagRelationsStep tagId) st

/-- Invoke a dynamically registered walker method by name on a node:
look up the bound Tag object and run `walk_resources_tagged_with` on
`unicode(tag)`, i.e. the tag's name; `none` when no such method was
registered. -/
def invokeWalker (st : BState) (methodName : String) (node : Node) :
    Option (List Resource) :=
  match dictGet st.methods methodName with
  | some tid => some (walk_resources_tagged_with node ((st.heap tid).name))
  | none => none

lemma createTagRelationsStep_methods (tagId : Nat) (st : BState) (rel : String × String) :
    (createTagRelationsStep tagId st rel).methods
      = dictSet st.methods ("walk_resources_tagged_with_" ++ rel.2) tagId := by
  unfold createTagRelationsStep
  cases dictGet st.registry rel.2 <;> rfl

lemma create_tag_relations_cons (tagId : Nat) (rel : String × String)
    (rest : List (String × String)) (st : BState) :
    create_tag_relations tagId (rel :: rest) st
      = create_tag_relations tagId rest (createTagRelationsStep tagId st rel) := rfl

lemma create_tag_relations_methods_stable (tagId : Nat) (rels : List (String × String))
    (st : BState) (key : String) (h : dictGet st.methods key = some tagId) :
    dictGet (create_tag_relations tagId rels st).methods key = some tagId := by
  induction rels generalizing st with
  | nil => exact h
  | cons rel rest ih =>
    rw [create_tag_relations_cons]
    apply ih
    rw [createTagRelationsStep_methods]
    by_cases hk : key = "walk_resources_tagged_with_" ++ rel.2
    · subst hk
      exact dictGet_dictSet_self _ _ _
    · rw [dictGet_dictSet_ne _ _ _ _ hk]
      exact h

lemma create_tag_relations_methods (tagId : Nat) (rels : List (String × String))
    (st : BState) (R target : String) (h : (R, target) ∈ rels) :
    dictGet (create_tag_relations tagId rels st).methods
        ("walk_resources_tagged_with_" ++ target) = some tagId := by
  induction rels generalizing st with
  | nil => cases h
  | cons rel rest ih =>
    rw [create_tag_relations_cons]
    rcases List.mem_cons.mp h with heq | htail
    · apply create_tag_relations_methods_stable
      rw [createTagRelationsStep_methods, ← heq]
      exact dictGet_dictSet_self _ _ _
    · exact ih _ htail

lemma createTagRelationsStep_heap_name (tagId : Nat) (st : BState)
    (rel : String × String) (i : Nat) (hi : i < st.nextId) :
    ((createTagRelationsStep tagId st rel).heap i).name = (st.heap i).name
      ∧ st.nextId ≤ (createTagRelationsStep tagId st rel).nextId := by
  unfold createTagRelationsStep
  cases hreg : dictGet st.registry rel.2 with
  | none =>
    constructor
    · simp only [relate_to_tag_name]
      exact congrArg Tag.name (Function.update_noteq (Nat.ne_of_lt hi) _ _)
    · exact Nat.le_succ _
  | some relatedId =>
    constructor
    · simp only [relate_to_tag_name]
    · exact Nat.le_refl _

lemma create_tag_relations_heap_name (tagId : Nat) (rels : List (String × String))
    (st : BState) (i : Nat) (hi : i < st.nextId) :
    ((create_tag_relations tagId rels st).heap i).name = (st.heap i).name
      ∧ st.nextId ≤ (create_tag_relations tagId rels st).nextId := by
  induction rels generalizing st with
  | nil => exact ⟨rfl, Nat.le_refl _⟩
  | cons rel rest ih =>
    have hstep := createTagRelationsStep_heap_name tagId st rel i hi
    have hrest := ih (createTagRelationsStep tagId st rel) (Nat.lt_of_lt_of_le hi hstep.2)
    exact ⟨hrest.1.trans hstep.1, Nat.le_trans hstep.2 hrest.2⟩

lemma walk_singleton (node : Node) (s : String) (hs : pySplitPlus s = [s]) :
    walk_resources_tagged_with node s
      = node.resources.filter (fun r =>
          match r.metaTags with
          | none => false
          | some ts => decide (s ∈ ts)) := by
  rw [walk_eq_filter]
  apply List.filter_congr
  intro r _
  unfold taggedWithAll
  cases h : r.metaTags with
  | none => rfl
  | some ts => simp [hs]

/-- C4: a relation processed during the build registers the per-tag
enumerator under the relation *target's* name, but bound to the
*source* tag object — so invoking
`walk_resources_tagged_with_<target>` yields the items whose
normalized tags include the *source* tag's name (for a source tag
whose name contains no `+`). -/
theorem relation_walker_filters_by_source_tag
    (st : BState) (tagId : Nat) (rels : List (String × String)) (node : Node)
    (R target : String) (hmem : (R, target) ∈ rels)
    (hid : tagId < st.nextId)
    (hname : pySplitPlus (st.heap tagId).name = [(st.heap tagId).name]) :
    invokeWalker (create_tag_relations tagId rels st)
        ("walk_resources_tagged_with_" ++ target) node
      = some (node.resources.filter (fun r =>
          match r.metaTags with
          | none => false
          | some ts => decide ((st.heap tagId).name ∈ ts))) := by
  have hreg := create_tag_relations_methods tagId rels st R target hmem
  have hnm := (create_tag_relations_heap_name tagId rels st tagId hid).1
  unfold invokeWalker
  rw [hreg]
  show some (walk_resources_tagged_with node
      ((create_tag_relations tagId rels st).heap tagId).name) = _
  rw [hnm, walk_singleton node _ hname]

/-- C4 witness: the registry holds tag `posts` (object 0); processing
relation `{parent: author}` registers `walk_resources_tagged_with_author`
bound to `posts`, and invoking it filters by `posts`. -/
theorem relation_walker_filters_by_source_tag_witness :
    invokeWalker
        (create_tag_relations 0 [("parent", "author")]
          (BState.mk (fun _ => Tag.mk "posts" [] [] []) 1 [("posts", 0)] []))
        ("walk_resources_tagged_with_" ++ "author")
        (Node.mk [Resource.mk 5 (some ["posts"]), Resource.mk 6 (some ["news"])])
      = some ((Node.mk [Resource.mk 5 (some ["posts"]),
            Resource.mk 6 (some ["news"])]).resources.filter
          (fun r =>
            match r.metaTags with
            | none => false
            | some ts =>
              decide ((((fun _ => Tag.mk "posts" [] [] []) : Nat → Tag) 0).name ∈ ts))) :=
  relation_walker_filters_by_source_tag
    (BState.mk (fun _ => Tag.mk "posts" [] [] []) 1 [("posts", 0)] [])
    0 [("parent", "author")]
    (Node.mk [Resource.mk 5 (some ["posts"]), Resource.mk 6 (some ["news"])])
    "parent" "author" (by decide) (by decide) (by decide)

/-- C3: the code stores a newly created relation-target tag in the
registry under the *relation name*, not under the target tag's own
name (`tags[relation_name]=related_tag` at tagger.py:234, although the
guard on line 232 tests `related_tag_name in tags`). Concretely: with
registry `{"posts": object 0}` and relations `{"parent": "author"}`,
after `_create_tag_relations` the registry has no key `"author"`;
instead the key `"parent"` maps to the new object whose name is
`"author"`. -/
theorem create_tag_relations_registry_key_divergence :
    dictGet (create_tag_relations 0 [("parent", "author")]
        (BState.mk (fun _ => Tag.mk "posts" [] [] []) 1 [("posts", 0)] [])).registry
        "author" = none
    ∧ dictGet (create_tag_relations 0 [("parent", "author")]
        (BState.mk (fun _ => Tag.mk "posts" [] [] []) 1 [("posts", 0)] [])).registry
        "parent" = some 1
    ∧ ((create_tag_relations 0 [("parent", "author")]
        (BState.mk (fun _ => Tag.mk "posts" [] [] []) 1 [("posts", 0)] [])).heap 1).name
        = "author" := by
  refine ⟨?_, ?_, ?_⟩ <;> rfl

/-! ## Tag declaration parsing (`_parse_tag_relations`) and error model -/

/-- The value of a structured tag declaration's single entry: either a
list of relation names (shorthand) or a mapping relation name →
target tag name. -/
inductive TagValue
  | listV (relations : List String)
  | mapV (relations : List (String × String))
deriving DecidableEq

/-- The runtime errors of the tagger plugin:

* `nameError ident` — a Python `NameError` raised by evaluating an
  undefined identifier `ident`;
* `configError msg` — `self.template.exception_class(msg)` raised from
  plugin code (the ConfigurationError of the host);
* `invalidTag tagname relations` — the InvalidTagDeclaration error of
  `_parse_tag_relations`, carrying the popped declaration entry that it
  formats into its message;
* `keyError` — `dict.popitem()` on an empty dict. -/
inductive TagError
  | nameError (ident : String)
  | configError (msg : String)
  | invalidTag (tagname : String) (relations : TagValue)
  | keyError
deriving DecidableEq

/-- `TaggerPlugin._parse_tag_relations(tagname, tags)`: the structured
declaration is a dict; `popitem()` removes one entry (modelled as the
last one) giving `(tagname, relations)`; if anything is left the
declaration named more than one tag and the InvalidTagDeclaration
error is raised; a list value is converted to the identity mapping
(`tmp[relation] = relation`). -/
def parse_tag_relations (decl : List (String × TagValue)) :
    Except TagError (String × List (String × String)) :=
  match decl.getLast? with
  | none => Except.error TagError.keyError
  | some (tagname, relations) =>
    if decl.dropLast.length > 0 then
      Except.error (TagError.invalidTag tagname relations)
    else
      let rel :=
        match relations with
        | TagValue.listV l => l.foldl (fun tmp r => dictSet tmp r r) []
        | TagValue.mapV m => m
      Except.ok (tagname, rel)

/-- C5: a structured declaration with more than one top-level key fails
with the InvalidTagDeclaration error naming the popped entry of the
offending declaration, while a declaration with exactly one top-level
key does not fail. -/
theorem parse_tag_relations_single_key (decl : List (String × TagValue)) :
    (∀ tagname relations, 2 ≤ decl.length →
      decl.getLast? = some (tagname, relations) →
      parse_tag_relations decl = Except.error (TagError.invalidTag tagname relations))
    ∧ (decl.length = 1 →
      ∃ result, parse_tag_relations decl = Except.ok result) := by
  constructor
  · intro tagname relations hlen hlast
    unfold parse_tag_relations
    rw [hlast]
    have hdrop : 0 < decl.dropLast.length := by
      rw [List.length_dropLast]
      omega
    exact if_pos hdrop
  · intro hlen
    obtain ⟨a, rfl⟩ := List.length_eq_one.mp hlen
    obtain ⟨tagname, relations⟩ := a
    cases relations with
    | listV l => exact ⟨_, rfl⟩
    | mapV m => exact ⟨_, rfl⟩

/-- C5 witness: a two-key declaration fails with InvalidTagDeclaration;
a one-key declaration parses. -/
theorem parse_tag_relations_single_key_witness :
    parse_tag_relations
        [("posts", TagValue.listV ["author"]), ("extra", TagValue.listV [])]
      = Except.error (TagError.invalidTag "extra" (TagValue.listV []))
    ∧ ∃ result,
        parse_tag_relations [("posts", TagValue.listV ["author"])]
          = Except.ok result :=
  ⟨(parse_tag_relations_single_key
      [("posts", TagValue.listV ["author"]), ("extra", TagValue.listV [])]).1
      "extra" (TagValue.listV []) (by decide) (by decide),
   (parse_tag_relations_single_key [("posts", TagValue.listV ["author"])]).2 rfl⟩

lemma dictSet_absent {α : Type _} (d : List (String × α)) (k : String) (v : α)
    (h : dictGet d k = none) : dictSet d k v = d ++ [(k, v)] := by
  induction d with
  | nil => rfl
  | cons p rest ih =>
    obtain ⟨pk, pv⟩ := p
    by_cases hp : pk = k
    · subst hp
      simp [dictGet] at h
    · simp only [dictGet, hp, if_false] at h
      simp [dictSet, hp, ih h]

lemma foldl_dictSet_self_map (l : List String) (acc : List (String × String))
    (hdisj : ∀ r ∈ l, dictGet acc r = none) (hnodup : l.Nodup) :
    l.foldl (fun tmp r => dictSet tmp r r) acc = acc ++ l.map (fun r => (r, r)) := by
  induction l generalizing acc with
  | nil => simp
  | cons r rest ih =>
    have hacc : dictGet acc r = none := hdisj r (List.mem_cons_self r rest)
    have hr : r ∉ rest := (List.nodup_cons.mp hnodup).1
    have hdisj' : ∀ x ∈ rest, dictGet (dictSet acc r r) x = none := by
      intro x hx
      have hxr : x ≠ r := fun hh => hr (hh ▸ hx)
      rw [dictGet_dictSet_ne _ _ _ _ hxr]
      exact hdisj x (List.mem_cons_of_mem _ hx)
    calc (r :: rest).foldl (fun tmp r => dictSet tmp r r) acc
        = rest.foldl (fun tmp r => dictSet tmp r r) (dictSet acc r r) := rfl
      _ = dictSet acc r r ++ rest.map (fun r => (r, r)) :=
          ih (dictSet acc r r) hdisj' (List.nodup_cons.mp hnodup).2
      _ = acc ++ (r :: rest).map (fun r => (r, r)) := by
          rw [dictSet_absent _ _ _ hacc]
          simp

/-- C6: for a tag named by a one-entry declaration, the list shorthand
`[r1, ..., rn]` parses to the same (tag name, relation map) result as
the explicit mapping form in which every relation name maps to itself
as target tag name (so both produce identical relation edges when fed
to `_create_tag_relations`). -/
theorem parse_tag_relations_list_shorthand (tagname : String) (l : List String)
    (hnodup : l.Nodup) :
    parse_tag_relations [(tagname, TagValue.listV l)]
      = parse_tag_relations [(tagname, TagValue.mapV (l.map (fun r => (r, r))))] := by
  have h := foldl_dictSet_self_map l [] (fun r _ => rfl) hnodup
  show Except.ok (tagname, l.foldl (fun tmp r => dictSet tmp r r) []) = _
  rw [h]
  rfl

/-- C6 witness: `{posts: [author, feature]}` parses identically to
`{posts: {author: author, feature: feature}}`. -/
theorem parse_tag_relations_list_shorthand_witness :
    (["author", "feature"] : List String).Nodup
    ∧ parse_tag_relations [("posts", TagValue.listV ["author", "feature"])]
        = parse_tag_relations
            [("posts",
              TagValue.mapV [("author", "author"), ("feature", "feature")])] :=
  ⟨by decide,
   parse_tag_relations_list_shorthand "posts" ["author", "feature"] (by decide)⟩

/-! ## Sorter resolution (`get_tagger_sort_method`) -/

/-- The site as seen by `get_tagger_sort_method`: the optional
`config.tagger.sorter` setting and the names of the enumeration
methods that exist on `site.content`. -/
structure Site where
  sorterCfg : Option String
  contentWalkers : List String

/-- `get_tagger_sort_method(site)`: when a sorter is configured, the
walker name becomes `walk_resources_sorted_by_<sorter>`; the name is
then looked up on the content object. On `AttributeError` the code
executes `raise self.template.exception_class(...)` — but `self` is
not defined in this module-level function, so evaluating the raise
statement itself raises `NameError` for the identifier `self` instead
of the intended ConfigurationError. -/
def get_tagger_sort_method (site : Site) : Except TagError String :=
  let walker :=
    match site.sorterCfg with
    | some s => "walk_resources_sorted_by_" ++ s
    | none => "walk_resources"
  if walker ∈ site.contentWalkers then Except.ok walker
  else Except.error (TagError.nameError "self")

/-- C7 (divergence evaluation): with `tagger.sorter = "time"` configured
and a content collection lacking `walk_resources_sorted_by_time`,
`get_tagger_sort_method` fails with `NameError` on the undefined
identifier `self` (tagger.py:70), not with a ConfigurationError whose
message names the missing sorter. -/
theorem get_tagger_sort_method_missing_sorter_name_error :
    get_tagger_sort_method (Site.mk (some "time") ["walk_resources"])
        = Except.error (TagError.nameError "self")
    ∧ ∀ msg : String,
        get_tagger_sort_method (Site.mk (some "time") ["walk_resources"])
          ≠ Except.error (TagError.configError msg) := by
  constructor
  · rfl
  · intro msg h
    rw [show get_tagger_sort_method (Site.mk (some "time") ["walk_resources"])
        = Except.error (TagError.nameError "self") from rfl] at h
    exact TagError.noConfusion (Except.error.inj h)

/-! ## Config tag metadata merge (`_process_tag_metadata`)

A `Tag` is an `Expando`, i.e. an attribute bag; for the metadata merge
we view tag objects as their attribute dicts (values of an arbitrary
type `α`, since the merge never inspects values). -/

/-- Modelled from the spec: `Expando.update` (defined in `hyde.model`,
outside the plugin source) merges a key/value mapping into the object,
setting each of the mapping's keys as an attribute of the object. -/
def expandoUpdate {α : Type _} (obj : List (String × α))
    (meta : List (String × α)) : List (String × α) :=
  meta.foldl (fun o p => dictSet o p.1 p.2) obj

/-- Loop body of `TaggerPlugin._process_tag_metadata` for one config
entry `(tagname, meta)`: delete the protected keys `resources` and
`name` from `meta`, then — only if `tagname` is a registry key —
merge the remaining keys into that tag
(`if tagname in tags: tags[tagname].update(meta)`). -/
def processOneTagMeta {α : Type _} (tags : List (String × List (String × α)))
    (entry : String × List (String × α)) : List (String × List (String × α)) :=
  let meta := dictDel entry.2 "resources"
  let meta := dictDel meta "name"
  match dictGet tags entry.1 with
  | some t => dictSet tags entry.1 (expandoUpdate t meta)
  | none => tags

/-- `TaggerPlugin._process_tag_metadata(tags)`: iterate over the
`tagger.tags` config dict's entries. -/
def process_tag_metadata {α : Type _} (tags : List (String × List (String × α)))
    (tag_meta : List (String × List (String × α))) :
    List (String × List (String × α)) :=
  tag_meta.foldl processOneTagMeta tags

lemma dictGet_expandoUpdate_notin {α : Type _} (meta obj : List (String × α))
    (k : String) (h : ∀ p ∈ meta, p.1 ≠ k) :
    dictGet (expandoUpdate obj meta) k = dictGet obj k := by
  induction meta generalizing obj with
  | nil => rfl
  | cons p rest ih =>
    have hp : p.1 ≠ k := h p (List.mem_cons_self p rest)
    calc dictGet (expandoUpdate (dictSet obj p.1 p.2) rest) k
        = dictGet (dictSet obj p.1 p.2) k :=
          ih _ (fun q hq => h q (List.mem_cons_of_mem _ hq))
      _ = dictGet obj k := dictGet_dictSet_ne _ _ _ _ (Ne.symm hp)

lemma dictGet_expandoUpdate_mem {α : Type _} (meta obj : List (String × α))
    (k : String) (v : α) (hnodup : (meta.map Prod.fst).Nodup)
    (h : (k, v) ∈ meta) :
    dictGet (expandoUpdate obj meta) k = some v := by
  induction meta generalizing obj with
  | nil => cases h
  | cons p rest ih =>
    rw [List.map_cons, List.nodup_cons] at hnodup
    rcases List.mem_cons.mp h with heq | htail
    · have hrest : ∀ q ∈ rest, q.1 ≠ p.1 := by
        intro q hq hqk
        apply hnodup.1
        rw [← hqk]
        exact List.mem_map_of_mem Prod.fst hq
      have hk : k = p.1 := congrArg Prod.fst heq
      subst hk
      calc dictGet (expandoUpdate (dictSet obj p.1 p.2) rest) p.1
          = dictGet (dictSet obj p.1 p.2) p.1 :=
            dictGet_expandoUpdate_notin _ _ _ hrest
        _ = some p.2 := dictGet_dictSet_self _ _ _
        _ = some v := by rw [show p.2 = v from congrArg Prod.snd heq.symm]
    · exact ih _ hnodup.2 htail

lemma dictDel_sublist {α : Type _} (d : List (String × α)) (k : String) :
    List.Sublist (dictDel d k) d := by
  induction d with
  | nil => exact List.Sublist.refl _
  | cons p rest ih =>
    obtain ⟨pk, pv⟩ := p
    by_cases hp : pk = k
    · simp only [dictDel, hp, if_true]
      exact List.sublist_cons_self _ _
    · simp only [dictDel, hp, if_false]
      exact List.Sublist.cons₂ _ ih

lemma mem_dictDel {α : Type _} (d : List (String × α)) (k : String)
    (p : String × α) (h : p ∈ dictDel d k) : p ∈ d :=
  (dictDel_sublist d k).subset h

lemma keys_dictDel_nodup {α : Type _} (d : List (String × α)) (k : String)
    (h : (d.map Prod.fst).Nodup) : ((dictDel d k).map Prod.fst).Nodup :=
  h.sublist ((dictDel_sublist d k).map Prod.fst)

lemma dictDel_key_gone {α : Type _} (d : List (String × α)) (k : String)
    (hnodup : (d.map Prod.fst).Nodup) :
    ∀ p ∈ dictDel d k, p.1 ≠ k := by
  induction d with
  | nil => intro p hp; cases hp
  | cons q rest ih =>
    obtain ⟨qk, qv⟩ := q
    rw [List.map_cons, List.nodup_cons] at hnodup
    by_cases hq : qk = k
    · simp only [dictDel, hq, if_true]
      intro p hp hpk
      have h1 : qk ∉ List.map Prod.fst rest := by simpa using hnodup.1
      apply h1
      rw [hq, ← hpk]
      exact List.mem_map_of_mem Prod.fst hp
    · simp only [dictDel, hq, if_false]
      intro p hp
      rcases List.mem_cons.mp hp with heq | htail
      · subst heq; exact hq
      · exact ih hnodup.2 p htail

lemma mem_dictDel_of_ne {α : Type _} (d : List (String × α)) (k : String)
    (p : String × α) (hmem : p ∈ d) (hne : p.1 ≠ k) : p ∈ dictDel d k := by
  induction d with
  | nil => cases hmem
  | cons q rest ih =>
    obtain ⟨qk, qv⟩ := q
    by_cases hq : qk = k
    · subst hq
      simp only [dictDel, if_true]
      rcases List.mem_cons.mp hmem with heq | htail
      · exact absurd (congrArg Prod.fst heq) hne
      · exact htail
    · simp only [dictDel, hq, if_false]
      rcases List.mem_cons.mp hmem with heq | htail
      · exact heq ▸ List.mem_cons_self _ _
      · exact List.mem_cons_of_mem _ (ih htail)

/-- C8: merging one config tag-metadata entry `(tagname, meta)` (whose
keys, coming from a Python dict, are distinct):

* when `tagname` is not a registry key the registry is unchanged;
* other registry entries are untouched;
* when `tagname` maps to a tag, the merged tag keeps its `name` and
  `resources` attributes unchanged (the protected keys are stripped
  from `meta` first), gains every non-protected key of `meta`, and
  keeps every attribute whose key `meta` does not mention. -/
theorem process_tag_metadata_protected_keys {α : Type _}
    (tags : List (String × List (String × α))) (tagname : String)
    (meta : List (String × α)) (hnodup : (meta.map Prod.fst).Nodup) :
    (dictGet tags tagname = none → processOneTagMeta tags (tagname, meta) = tags)
    ∧ (∀ n, n ≠ tagname →
        dictGet (processOneTagMeta tags (tagname, meta)) n = dictGet tags n)
    ∧ (∀ tag, dictGet tags tagname = some tag →
        ∃ tag', dictGet (processOneTagMeta tags (tagname, meta)) tagname = some tag'
          ∧ dictGet tag' "name" = dictGet tag "name"
          ∧ dictGet tag' "resources" = dictGet tag "resources"
          ∧ (∀ k v, k ≠ "name" → k ≠ "resources" → (k, v) ∈ meta →
              dictGet tag' k = some v)
          ∧ (∀ k, (∀ p ∈ meta, p.1 ≠ k) → dictGet tag' k = dictGet tag k)) := by
  have hnodup1 : ((dictDel meta "resources").map Prod.fst).Nodup :=
    keys_dictDel_nodup meta "resources" hnodup
  have hnodup2 :
      ((dictDel (dictDel meta "resources") "name").map Prod.fst).Nodup :=
    keys_dictDel_nodup _ "name" hnodup1
  refine ⟨?_, ?_, ?_⟩
  · intro hnone
    unfold processOneTagMeta
    rw [hnone]
  · intro n hn
    unfold processOneTagMeta
    cases hget : dictGet tags tagname with
    | none => rfl
    | some t => exact dictGet_dictSet_ne _ _ _ _ hn
  · intro tag hget
    unfold processOneTagMeta
    rw [hget]
    refine ⟨expandoUpdate tag (dictDel (dictDel meta "resources") "name"),
      dictGet_dictSet_self _ _ _, ?_, ?_, ?_, ?_⟩
    · exact dictGet_expandoUpdate_notin _ _ _
        (dictDel_key_gone (dictDel meta "resources") "name" hnodup1)
    · exact dictGet_expandoUpdate_notin _ _ _
        (fun p hp => dictDel_key_gone meta "resources" hnodup p
          (mem_dictDel (dictDel meta "resources") "name" p hp))
    · intro k v hk1 hk2 hkv
      exact dictGet_expandoUpdate_mem _ _ _ _ hnodup2
        (mem_dictDel_of_ne _ "name"
          (k, v) (mem_dictDel_of_ne _ "resources" (k, v) hkv hk2) hk1)
    · intro k hk
      exact dictGet_expandoUpdate_notin _ _ _
        (fun p hp => hk p (mem_dictDel meta "resources" p
          (mem_dictDel (dictDel meta "resources") "name" p hp)))

/-- C8 witness: a config entry for an unknown tag changes nothing; a
config entry for the existing tag `x` carrying `name`, `resources` and
`color` leaves the tag's `name` attribute unchanged. -/
theorem process_tag_metadata_protected_keys_witness :
    ((([("name", "y"), ("resources", "r1"), ("color", "red")] :
        List (String × String)).map Prod.fst).Nodup)
    ∧ processOneTagMeta [("x", [("size", "s")])]
        ("missing", [("name", "y"), ("resources", "r1"), ("color", "red")])
        = [("x", [("size", "s")])]
    ∧ ∃ tag', dictGet (processOneTagMeta
          [("x", [("name", "x"), ("size", "s")])]
          ("x", [("name", "y"), ("resources", "r1"), ("color", "red")])) "x"
          = some tag'
        ∧ dictGet tag' "name" = dictGet [("name", "x"), ("size", "s")] "name" :=
  ⟨by decide,
   (process_tag_metadata_protected_keys [("x", [("size", "s")])] "missing"
      [("name", "y"), ("resources", "r1"), ("color", "red")] (by decide)).1
      (by decide),
   by
     obtain ⟨tag', h1, h2, _⟩ :=
       (process_tag_metadata_protected_keys [("x", [("name", "x"), ("size", "s")])]
          "x" [("name", "y"), ("resources", "r1"), ("color", "red")]
          (by decide)).2.2 [("name", "x"), ("size", "s")] (by decide)
     exact ⟨tag', h1, h2⟩⟩

/-! ## Archive generation (`_create_tag_archive`)

The filesystem is modelled as a dict from path to file text;
`File.delete()` removes the entry, `File.write(text)` stores it; the
`target.make()` directory creation and `add_resource` registration are
the host's capabilities — registration is carried as the list of added
archive file paths. -/

/-- The archive configuration dict of one `tagger.archives` entry:
`template` (required), `source` (default `''`, carried as the resolved
node name), `target` (default `'tags'`), the yaml-serialized `meta`
text (`''` when no meta is configured; serialization is the external
yaml capability), and `extension` (default `'html'`). -/
structure ArchiveConfig where
  template : Option String
  source : String
  target : String
  metaText : String
  extension : Option String

/-- A filesystem: path → file text. -/
structure FS where
  files : List (String × String)

/-- `File.delete()`. -/
def fsDelete (fs : FS) (path : String) : FS :=
  FS.mk (dictDel fs.files path)

/-- `File.write(text)`. -/
def fsWrite (fs : FS) (path text : String) : FS :=
  FS.mk (dictSet fs.files path text)

/-- The `archive_text` literal of `_create_tag_archive` with
`%(meta)s`, `%(tag)s`, `%(node)s`, `%(template)s` substituted (each
`%%` of the literal yields one `%` character; `\x7b`/`\x7d` denote the
brace characters of the template syntax). -/
def archiveText (meta tag node template : String) : String :=
  let q := String.singleton (Char.ofNat 39)
  "\n---\nextends: false\n" ++ meta
    ++ "\n---\n\n\x7b% set tag = site.tagger.tags[" ++ q ++ tag ++ q ++ "] %\x7d\n"
    ++ "\x7b% set source = site.content.node_from_relative_path(" ++ q ++ node
    ++ q ++ ") %\x7d\n"
    ++ "\x7b% set walker = source.walk_resources_tagged_with_" ++ tag ++ " %\x7d\n"
    ++ "\x7b% extends \"" ++ template ++ "\" %\x7d\n"

/-- `target.child("%s.%s" % (tagname, extension))`: the archive file
path for one tag. -/
def archivePath (cfg : ArchiveConfig) (tagname : String) : String :=
  cfg.target ++ "/" ++ tagname ++ "." ++ cfg.extension.getD "html"

/-- Loop body of `_create_tag_archive` for one registry entry: format
the text, `delete()` any existing archive file, `write()` the stripped
text, and `add_resource` the file (appended to the registration
list). -/
def archiveStep (cfg : ArchiveConfig) (template : String)
    (st : FS × List String) (tagname : String) : FS × List String :=
  let text := (archiveText cfg.metaText tagname cfg.source template).trim
  let path := archivePath cfg tagname
  (fsWrite (fsDelete st.1 path) path text, st.2 ++ [path])

/-- `TaggerPlugin._create_tag_archive(config)`: raise the
ConfigurationError when the `template` key is missing — before
touching any file — otherwise write one archive file per registry tag
name. -/
def create_tag_archive (cfg : ArchiveConfig) (tagnames : List String)
    (fs : FS) (items : List String) : Except TagError (FS × List String) :=
  match cfg.template with
  | none =>
    Except.error (TagError.configError "No Template specified in tagger configuration.")
  | some template =>
    Except.ok (tagnames.foldl (archiveStep cfg template) (fs, items))

lemma archivePath_inj (cfg : ArchiveConfig) (n1 n2 : String)
    (h : archivePath cfg n1 = archivePath cfg n2) : n1 = n2 := by
  unfold archivePath at h
  have hd : (cfg.target ++ "/" ++ n1 ++ "." ++ cfg.extension.getD "html").data
      = (cfg.target ++ "/" ++ n2 ++ "." ++ cfg.extension.getD "html").data := by
    rw [h]
  simp only [String.data_append, List.append_assoc] at hd
  have h1 := List.append_cancel_left (List.append_cancel_left hd)
  rw [← List.append_assoc, ← List.append_assoc] at h1
  have h2 := List.append_cancel_right h1
  have h3 := List.append_cancel_right h2
  exact String.ext h3

lemma archiveFold_items (cfg : ArchiveConfig) (template : String)
    (tagnames : List String) (fs : FS) (items : List String) :
    (tagnames.foldl (archiveStep cfg template) (fs, items)).2
      = items ++ tagnames.map (archivePath cfg) := by
  induction tagnames generalizing fs items with
  | nil => simp
  | cons n rest ih =>
    calc ((n :: rest).foldl (archiveStep cfg template) (fs, items)).2
        = (rest.foldl (archiveStep cfg template)
            (archiveStep cfg template (fs, items) n)).2 := rfl
      _ = (items ++ [archivePath cfg n]) ++ rest.map (archivePath cfg) := ih _ _
      _ = items ++ (n :: rest).map (archivePath cfg) := by simp

lemma archiveFold_frame (cfg : ArchiveConfig) (template : String)
    (tagnames : List String) (fs : FS) (items : List String) (p : String)
    (hp : p ∉ tagnames.map (archivePath cfg)) :
    dictGet (tagnames.foldl (archiveStep cfg template) (fs, items)).1.files p
      = dictGet fs.files p := by
  induction tagnames generalizing fs items with
  | nil => rfl
  | cons n rest ih =>
    have hpn : p ≠ archivePath cfg n := by
      intro hh
      exact hp (hh ▸ List.mem_cons_self _ _)
    have hprest : p ∉ rest.map (archivePath cfg) := by
      intro hh
      exact hp (List.mem_cons_of_mem _ hh)
    calc dictGet ((n :: rest).foldl (archiveStep cfg template) (fs, items)).1.files p
        = dictGet (rest.foldl (archiveStep cfg template)
            (archiveStep cfg template (fs, items) n)).1.files p := rfl
      _ = dictGet (fsWrite (fsDelete fs (archivePath cfg n)) (archivePath cfg n)
            ((archiveText cfg.metaText n cfg.source template).trim)).files p :=
          ih _ _ hprest
      _ = dictGet fs.files p := by
          unfold fsWrite fsDelete
          rw [dictGet_dictSet_ne _ _ _ _ hpn, dictGet_dictDel_ne _ _ _ hpn]

lemma archiveFold_content (cfg : ArchiveConfig) (template : String)
    (tagnames : List String) (fs : FS) (items : List String) (n : String)
    (hn : n ∈ tagnames) :
    dictGet (tagnames.foldl (archiveStep cfg template) (fs, items)).1.files
        (archivePath cfg n)
      = some ((archiveText cfg.metaText n cfg.source template).trim) := by
  induction tagnames generalizing fs items with
  | nil => cases hn
  | cons m rest ih =>
    by_cases hr : n ∈ rest
    · exact ih _ _ hr
    · have hnm : n = m := by
        rcases List.mem_cons.mp hn with heq | htail
        · exact heq
        · exact absurd htail hr
      subst hnm
      have hpath : archivePath cfg n ∉ rest.map (archivePath cfg) := by
        intro hh
        obtain ⟨n', hn', hpn'⟩ := List.mem_map.mp hh
        exact hr ((archivePath_inj cfg n' n hpn') ▸ hn')
      calc dictGet ((n :: rest).foldl (archiveStep cfg template) (fs, items)).1.files
              (archivePath cfg n)
          = dictGet (archiveStep cfg template (fs, items) n).1.files
              (archivePath cfg n) :=
            archiveFold_frame cfg template rest _ _ _ hpath
        _ = some ((archiveText cfg.metaText n cfg.source template).trim) := by
            unfold archiveStep fsWrite fsDelete
            exact dictGet_dictSet_self _ _ _

/-- C9: with a `template` key present, archive generation succeeds and
writes exactly one file per registry tag name at
`target/<tagname>.<extension>` (extension defaulting to `html`),
overwriting whatever the filesystem previously held at that path, and
registers each written file as a new content item; every other path is
untouched. Without a `template` key it fails with the
ConfigurationError before writing anything. -/
theorem create_tag_archive_spec (cfg : ArchiveConfig) (tagnames : List String)
    (fs : FS) (items : List String) :
    (cfg.template = none →
      create_tag_archive cfg tagnames fs items
        = Except.error
            (TagError.configError "No Template specified in tagger configuration."))
    ∧ (∀ template, cfg.template = some template →
        ∃ fs' items', create_tag_archive cfg tagnames fs items = Except.ok (fs', items')
          ∧ items' = items ++ tagnames.map (archivePath cfg)
          ∧ (∀ n ∈ tagnames, dictGet fs'.files (archivePath cfg n)
              = some ((archiveText cfg.metaText n cfg.source template).trim))
          ∧ (∀ p, p ∉ tagnames.map (archivePath cfg) →
              dictGet fs'.files p = dictGet fs.files p)) := by
  constructor
  · intro hnone
    unfold create_tag_archive
    rw [hnone]
  · intro template htmpl
    unfold create_tag_archive
    rw [htmpl]
    refine ⟨(tagnames.foldl (archiveStep cfg template) (fs, items)).1,
      (tagnames.foldl (archiveStep cfg template) (fs, items)).2, rfl, ?_, ?_, ?_⟩
    · exact archiveFold_items cfg template tagnames fs items
    · intro n hn
      exact archiveFold_content cfg template tagnames fs items n hn
    · intro p hp
      exact archiveFold_frame cfg template tagnames fs items p hp

/-- C9 witness: an archive spec with template `t.j2`, target
`blog/tags` and default extension generates exactly the files
`blog/tags/python.html` and `blog/tags/go.html` (overwriting the
stale `blog/tags/python.html`) and registers both. -/
theorem create_tag_archive_spec_witness :
    ∃ fs' items',
      create_tag_archive
          (ArchiveConfig.mk (some "t.j2") "blog" "blog/tags" "" none)
          ["python", "go"]
          (FS.mk [("blog/tags/python.html", "stale")]) []
        = Except.ok (fs', items')
      ∧ items' = [] ++ ["python", "go"].map
          (archivePath (ArchiveConfig.mk (some "t.j2") "blog" "blog/tags" "" none)) := by
  obtain ⟨fs', items', h1, h2, _, _⟩ :=
    (create_tag_archive_spec
      (ArchiveConfig.mk (some "t.j2") "blog" "blog/tags" "" none)
      ["python", "go"]
      (FS.mk [("blog/tags/python.html", "stale")]) []).2 "t.j2" rfl
  exact ⟨fs', items', h1, h2⟩
